import Mathlib

/-!
Verification development for the Stream-Buddy repository.

The repository snapshot contains the overlay rig (`DuckBuddy.ts`), its
controller (`src/overlay-controller.ts`) and the documentation of the
backend pipeline (`backend/docs/pipeline.md`, `docs/pipecat-pipeline.md`).
The backend arbitration components themselves (TurnArbiter, MicGate,
STTMuteFilter, TwitchChatSource, SharedState) are referenced by the
documentation but their Python sources are not part of the snapshot, so
they are modelled here from the specification.  The overlay rig and its
controller are embedded directly from the TypeScript source.
-/

/-- Origin of a turn request: local speech (`voice`) or the external chat
channel (`chat`/twitch). -/
inductive Origin where
  | voice
  | chat
  deriving DecidableEq

/-- Modelled from the spec: `TurnRequest` record, §3 — origin, user identifier,
text payload and enqueue timestamp; immutable once created. -/
structure TurnRequest where
  origin : Origin
  user : String
  content : String
  enqueuedAt : Nat
  deriving DecidableEq

/-- Modelled from the spec: `ActiveTurn` record, §3 — exists only while the
arbiter is Busy; created on release, cleared on completion or watchdog
expiry.  `turnId` is the logical identity of the release (design note §9:
a completion token carries the turn identity); `releasedAt` is a logical
timestamp. -/
structure ActiveTurn where
  turnId : Nat
  origin : Origin
  user : String
  releasedAt : Nat
  deriving DecidableEq

/-- Modelled from the spec: the Turn Arbiter's owned state, §4.5 — the pending
FIFO queue, the (at most one) active turn, the consecutive-voice-release
counter backing the fairness rule, a fresh-id counter, the trace of released
requests in release order, the count of queue-release attempts, and the
`currentTurnOrigin/User` fields the arbiter publishes into SharedState.
`active` is kept as a list so that "zero or one ActiveTurn" is a proved
invariant rather than a typing artefact. -/
structure ArbiterState where
  queue : List TurnRequest
  active : List ActiveTurn
  consecVoice : Nat
  nextId : Nat
  released : List TurnRequest
  attempts : Nat
  curOrigin : Option Origin
  curUser : Option String
  deriving DecidableEq

/-- Boolean test: request originates from voice. -/
def isVoiceReq (r : TurnRequest) : Bool := r.origin == Origin.voice

/-- Boolean test: request originates from chat. -/
def isChatReq (r : TurnRequest) : Bool := r.origin == Origin.chat

/-- Boolean test: request originates from origin `o`. -/
def ofOrigin (o : Origin) (r : TurnRequest) : Bool := r.origin == o

/-- Modelled from the spec: selection policy §4.5 — voice-origin requests are
preferred over chat-origin requests when both are queued, except that after
`fairN` consecutive voice releases the next release must prefer the oldest
queued chat request if one exists. Returns the origin whose oldest queued
request is to be released, or `none` when the queue is empty. -/
def chooseOrigin (fairN : Nat) (consec : Nat) (q : List TurnRequest) : Option Origin :=
  if fairN ≤ consec ∧ q.any isChatReq then some Origin.chat
  else if q.any isVoiceReq then some Origin.voice
  else if q.any isChatReq then some Origin.chat
  else none

/-- Modelled from the spec: the body of `release()` §4.5 once an origin has
been chosen — remove the oldest request of that origin from the queue,
construct an `ActiveTurn`, transition to Busy, update
`SharedState.currentTurnOrigin/User`, append the request to the release
trace, and maintain the consecutive-voice counter (reset on a chat
release). -/
def doRelease (o : Origin) (s : ArbiterState) : ArbiterState :=
  match s.queue.find? (ofOrigin o) with
  | none => s
  | some r =>
    { s with
      queue := s.queue.eraseP (ofOrigin o)
      active := [⟨s.nextId, r.origin, r.user, s.nextId⟩]
      consecVoice := if o = Origin.voice then s.consecVoice + 1 else 0
      nextId := s.nextId + 1
      released := s.released ++ [r]
      curOrigin := some r.origin
      curUser := some r.user }

/-- Modelled from the spec: `release()` §4.5 — triggered on becoming Idle;
releases at most one queued request, and only when no ActiveTurn exists. -/
def attemptRelease (fairN : Nat) (s : ArbiterState) : ArbiterState :=
  if s.active = [] then
    match chooseOrigin fairN s.consecVoice s.queue with
    | none => s
    | some o => doRelease o s
  else s

/-- A queue-release attempt: bump the attempt counter, then run `release()`. -/
def tryRelease (fairN : Nat) (s : ArbiterState) : ArbiterState :=
  attemptRelease fairN { s with attempts := s.attempts + 1 }

/-- Modelled from the spec: `submit(request)` §4.5 — append to the pending
queue; if currently Idle, immediately attempt a release; if Busy, the request
waits.  No error path. -/
def submit (fairN : Nat) (r : TurnRequest) (s : ArbiterState) : ArbiterState :=
  let s1 := { s with queue := s.queue ++ [r] }
  if s1.active = [] then tryRelease fairN s1 else s1

/-- Clear the active turn and the published `currentTurnOrigin/User`. -/
def clearActive (s : ArbiterState) : ArbiterState :=
  { s with active := [], curOrigin := none, curUser := none }

/-- Boolean test: state holds an active turn with identity `tid`. -/
def hasTurn (tid : Nat) (s : ArbiterState) : Bool :=
  s.active.any (fun a => a.turnId == tid)

/-- Modelled from the spec: `onTurnComplete()` §4.5 — when the completion
signal matches the active turn, clear the ActiveTurn and `currentTurn*`,
transition to Idle and attempt a release; a signal for a turn that is no
longer active is a no-op (§7: a completion while Idle is a no-op, §9: the
completion token carries the turn identity so a stale signal cannot clear an
unrelated newer turn). -/
def onTurnComplete (fairN : Nat) (tid : Nat) (s : ArbiterState) : ArbiterState :=
  if hasTurn tid s then tryRelease fairN (clearActive s) else s

/-- Modelled from the spec: `onWatchdogExpire()` §4.5 — force-clear the
matching ActiveTurn and `currentTurn*`, transition to Idle and attempt a
release; idempotent against a completion signal (whichever fires first wins,
the second is a no-op). -/
def onWatchdogExpire (fairN : Nat) (tid : Nat) (s : ArbiterState) : ArbiterState :=
  if hasTurn tid s then tryRelease fairN (clearActive s) else s

/-- The external events driving the arbiter state machine. -/
inductive ArbEvent where
  | submit (r : TurnRequest)
  | complete (tid : Nat)
  | watchdog (tid : Nat)
  deriving DecidableEq

/-- One step of the arbiter state machine. -/
def arbStep (fairN : Nat) (s : ArbiterState) : ArbEvent → ArbiterState
  | ArbEvent.submit r => submit fairN r s
  | ArbEvent.complete tid => onTurnComplete fairN tid s
  | ArbEvent.watchdog tid => onWatchdogExpire fairN tid s

/-- The arbiter's initial state: Idle with an empty queue. -/
def initArbiter : ArbiterState :=
  { queue := [], active := [], consecVoice := 0, nextId := 0, released := [],
    attempts := 0, curOrigin := none, curUser := none }

/-- Run the arbiter from its initial state over a sequence of events. -/
def arbRun (fairN : Nat) (es : List ArbEvent) : ArbiterState :=
  es.foldl (arbStep fairN) initArbiter

/-- The requests submitted by an event sequence, in submission order. -/
def submitsOf (es : List ArbEvent) : List TurnRequest :=
  es.filterMap (fun e => match e with | ArbEvent.submit r => some r | _ => none)

/-- Modelled from the spec: operating mode of the `SharedState` record §3. -/
inductive Mode where
  | idle
  | listening
  deriving DecidableEq

/-- Modelled from the spec: `SharedState` §3 — process-wide record of
operating mode, output-active flag and last-released turn attribution. -/
structure SharedState where
  mode : Mode
  outputActive : Bool
  currentTurnOrigin : Option Origin
  currentTurnUser : Option String
  deriving DecidableEq

/-- Modelled from the spec: the Audio Gate (MicGate) §4.1, whose Python
source `src/processors/mic_gate.py` is not in the repository snapshot —
forward the raw frame only if `mode == listening` and `outputActive ==
false`; otherwise discard silently (no error, no buffering). -/
def micGate (st : SharedState) (frame : Nat) : Option Nat :=
  if st.mode = Mode.listening ∧ st.outputActive = false then some frame else none

/-- A transcription event: interim (partial) or finalized text. -/
inductive SttEvent where
  | interim (text : String)
  | final (text : String)
  deriving DecidableEq

/-- Modelled from the spec: the Input Mute Filter (STTMuteFilter) §4.2, whose
Python source `src/processors/stt_mute.py` is not in the repository
snapshot — forward a finalized transcription only if `outputActive == false`;
interim transcriptions are never forwarded regardless of state. -/
def sttMuteFilter (st : SharedState) : SttEvent → Option String
  | SttEvent.interim _ => none
  | SttEvent.final t => if st.outputActive then none else some t

/-- A chat message remembered by the ingress for duplicate suppression. -/
structure SeenMsg where
  user : String
  text : String
  sentAt : Nat
  deriving DecidableEq

/-- Boolean test: remembered message is an identical message from the same
user within the cooldown window ending at `now`. -/
def isRecentDup (user text : String) (now cooldown : Nat) (e : SeenMsg) : Bool :=
  e.user == user && e.text == text && now - e.sentAt < cooldown

/-- Modelled from the spec: Chat Ingress `ingest(user, text)` §4.3, whose
Python source `src/processors/twitch_source.py` is not in the repository
snapshot — evaluate the trigger predicate `trig`; if matched and the message
is not an identical message from the same user within the cooldown window,
produce exactly one chat-origin TurnRequest and remember the message;
otherwise drop it silently.  Ingestion does not depend on
`mode`/`outputActive`. -/
def ingest (trig : String → Bool) (cooldown : Nat) (seen : List SeenMsg)
    (user text : String) (now : Nat) : List SeenMsg × Option TurnRequest :=
  if trig text then
    if seen.any (isRecentDup user text now cooldown) then (seen, none)
    else (⟨user, text, now⟩ :: seen, some ⟨Origin.chat, user, text, now⟩)
  else (seen, none)

/-- Texture aliases used by the rig (`DuckTextures` in `DuckBuddy.ts`). -/
inductive TexName where
  | body | head
  | eyesOpen | eyesBlink1 | eyesBlink2 | eyesBlink3 | eyesHappy | eyesAngry
  | mouthStatic | mouthTalk1 | mouthTalk2 | mouthTalk3
  | mouthAngry1 | mouthAngry2 | mouthAngry3
  | hands | handsCrossed | handsPointing
  | feetIdle | feet1 | feet2 | feet3 | feet4 | feet5
  | hat1 | hat2 | hat3
  deriving DecidableEq

/-- The rig's high-level states (`DuckState` in `DuckBuddy.ts`). -/
inductive DuckState where
  | idle | walk | talk | happyTalk | angryTalk | handsCrossed
  deriving DecidableEq

/-- The observable fields of a part's `AnimatedSprite` that the rig code
touches: the texture frame list, current frame index, playing flag,
animation speed (in hundredths, e.g. `speedC = 12` for `0.12`), loop flag,
vertical offset and visibility. `gotoAndStop(0)` sets `frame := 0` and
`playing := false`; `play()` sets `playing := true`. -/
structure Sprite where
  textures : List TexName
  frame : Nat
  playing : Bool
  speedC : Nat
  loop : Bool
  y : Int
  visible : Bool
  deriving DecidableEq

/-- A part sprite as created by the rig constructor's `makePart`: given
frames, `animationSpeed = 0.12`, playing, loop on, at `y = 0`, visible. -/
def mkSprite (texs : List TexName) : Sprite :=
  { textures := texs, frame := 0, playing := true, speedC := 12, loop := true,
    y := 0, visible := true }

/-- Recorded base Y per part (`baseYByPart` in `DuckBuddy.ts`). -/
structure BaseY where
  body : Int
  feet : Int
  head : Int
  hands : Int
  mouth : Int
  eyes : Int
  hat : Int
  deriving DecidableEq

/-- The `DuckBuddy` rig: current state, the seven layered part sprites, the
blink gate, the preserved walk base Y, the rig's own vertical position and
the recorded per-part base Y values (embedded from `DuckBuddy.ts`). -/
structure DuckBuddy where
  state : DuckState
  body : Sprite
  feet : Sprite
  head : Sprite
  hands : Sprite
  mouth : Sprite
  eyes : Sprite
  hat : Sprite
  blinkEnabled : Bool
  walkBaseY : Option Int
  y : Int
  baseY : BaseY
  deriving DecidableEq

/-- `applyPartOffsets(bodyGroupOffset, headGroupOffset)` from `DuckBuddy.ts`:
torso cluster (body, hands) gets the body offset, head cluster (head, eyes,
mouth, hat) gets the head offset, each added to the recorded base Y. -/
def applyPartOffsets (bodyOff headOff : Int) (d : DuckBuddy) : DuckBuddy :=
  { d with
    body := { d.body with y := d.baseY.body + bodyOff }
    hands := { d.hands with y := d.baseY.hands + bodyOff }
    head := { d.head with y := d.baseY.head + headOff }
    eyes := { d.eyes with y := d.baseY.eyes + headOff }
    mouth := { d.mouth with y := d.baseY.mouth + headOff }
    hat := { d.hat with y := d.baseY.hat + headOff } }

/-- `DuckBuddy.setState(next)` embedded from `DuckBuddy.ts`: early-return
when the state is unchanged; otherwise set the state, reset eyes, mouth,
hands and feet to their default single-frame textures (stopped at frame 0),
re-enable blinking, specialize per state (walk feet loop, talking mouth
loops, happy or angry eyes, crossed hands), and when entering a non-walk
state restore `y` from `walkBaseY`, clear `walkBaseY` and reset the part
offsets to base. -/
def duckSetState (next : DuckState) (d0 : DuckBuddy) : DuckBuddy :=
  if d0.state = next then d0
  else
    let d1 : DuckBuddy :=
      { d0 with
        state := next
        eyes := { d0.eyes with textures := [TexName.eyesOpen], frame := 0, playing := false }
        mouth := { d0.mouth with textures := [TexName.mouthStatic], frame := 0, playing := false }
        hands := { d0.hands with textures := [TexName.hands], frame := 0, playing := false }
        feet := { d0.feet with textures := [TexName.feetIdle], frame := 0, playing := false }
        blinkEnabled := true }
    let d2 : DuckBuddy :=
      match next with
      | DuckState.idle => d1
      | DuckState.walk =>
        { d1 with
          walkBaseY := some d1.y
          feet := { d1.feet with
            textures := [TexName.feet1, TexName.feet2, TexName.feet3,
                         TexName.feet4, TexName.feet5, TexName.feet4,
                         TexName.feet3, TexName.feet2]
            speedC := 18, loop := true, playing := true } }
      | DuckState.talk =>
        { d1 with
          mouth := { d1.mouth with
            textures := [TexName.mouthTalk1, TexName.mouthTalk2,
                         TexName.mouthTalk3, TexName.mouthTalk2]
            speedC := 22, loop := true, playing := true } }
      | DuckState.happyTalk =>
        { d1 with
          mouth := { d1.mouth with
            textures := [TexName.mouthTalk1, TexName.mouthTalk2,
                         TexName.mouthTalk3, TexName.mouthTalk2]
            speedC := 22, loop := true, playing := true }
          eyes := { d1.eyes with textures := [TexName.eyesHappy], frame := 0, playing := false }
          blinkEnabled := false }
      | DuckState.angryTalk =>
        { d1 with
          mouth := { d1.mouth with
            textures := [TexName.mouthAngry1, TexName.mouthAngry2,
                         TexName.mouthAngry3, TexName.mouthAngry2]
            speedC := 24, loop := true, playing := true }
          eyes := { d1.eyes with textures := [TexName.eyesAngry], frame := 0, playing := false } }
      | DuckState.handsCrossed =>
        { d1 with
          hands := { d1.hands with textures := [TexName.handsCrossed], frame := 0, playing := false } }
    if next ≠ DuckState.walk then
      let d3 : DuckBuddy :=
        match d2.walkBaseY with
        | some b => { d2 with y := b, walkBaseY := none }
        | none => { d2 with walkBaseY := none }
      applyPartOffsets 0 0 d3
    else d2

/-- A concrete rig as assembled by the `DuckBuddy` constructor: the seven
parts from `makePart` with their initial textures, hat hidden by
`setHat(null)`; the trailing `setState('idle')` is a no-op because the state
field is initialized to `idle`. -/
def initDuck : DuckBuddy :=
  { state := DuckState.idle
    body := mkSprite [TexName.body]
    feet := mkSprite [TexName.feetIdle]
    head := mkSprite [TexName.head]
    hands := mkSprite [TexName.hands]
    mouth := mkSprite [TexName.mouthStatic]
    eyes := mkSprite [TexName.eyesOpen]
    hat := { mkSprite [TexName.hat1] with visible := false }
    blinkEnabled := true
    walkBaseY := none
    y := 0
    baseY := { body := 0, feet := 0, head := 0, hands := 0, mouth := 0, eyes := 0, hat := 0 } }

/-- Talking moods understood by the overlay controller. -/
inductive Mood where
  | neutral | happy | angry
  deriving DecidableEq

/-- States the backend may force on the overlay (`force_state` event). -/
inductive ForcedKind where
  | idle | walk | handsCrossed
  deriving DecidableEq

/-- The `OverlayController` fields touched by its frame update (embedded from
`src/overlay-controller.ts`): the talking and listening flags, default mood,
forced state, the idle/walk scheduler (`isRoaming`, `cycleTimer`,
`nextCycle`) and the rig it drives. -/
structure OverlayController where
  talking : Bool
  listening : Bool
  defaultMood : Mood
  forcedState : Option ForcedKind
  isRoaming : Bool
  cycleTimer : ℚ
  nextCycle : ℚ
  buddy : DuckBuddy
  deriving DecidableEq

/-- `OverlayController.update(dtMs)` embedded from
`src/overlay-controller.ts`: return unchanged while talking or while a
forced state is set; otherwise advance the cycle timer and, when it reaches
`nextCycle`, toggle roaming, switch the rig between `walk` and `idle`, reset
the timer and draw the next cycle length `2500 + rnd * 4000` (the call to
`Math.random()` is passed in as `rnd`). -/
def ocUpdate (rnd : ℚ) (dtMs : ℚ) (c : OverlayController) : OverlayController :=
  if c.talking then c
  else if c.forcedState.isSome then c
  else
    let t := c.cycleTimer + dtMs
    if c.nextCycle ≤ t then
      let roam := !c.isRoaming
      { c with
        isRoaming := roam
        buddy := duckSetState (if roam then DuckState.walk else DuckState.idle) c.buddy
        cycleTimer := 0
        nextCycle := 2500 + rnd * 4000 }
    else { c with cycleTimer := t }

/-- A concrete voice request (fixture for scenario checks). -/
def reqV1 : TurnRequest := ⟨Origin.voice, "bootoshi", "hi there", 0⟩

/-- A concrete chat request (fixture for scenario checks). -/
def reqC1 : TurnRequest := ⟨Origin.chat, "u1", "hello duck", 1⟩

/-- A concrete arbiter state: Idle, a voice and a chat request queued, two
consecutive voice releases already granted (fixture for the fairness
check). -/
def fairFixture : ArbiterState :=
  { queue := [⟨Origin.voice, "bootoshi", "again", 7⟩, ⟨Origin.chat, "u2", "my turn", 8⟩],
    active := [], consecVoice := 2, nextId := 5, released := [], attempts := 4,
    curOrigin := none, curUser := none }

/-- A concrete overlay controller currently talking (fixture). -/
def talkingController : OverlayController :=
  { talking := true, listening := false, defaultMood := Mood.neutral,
    forcedState := none, isRoaming := true, cycleTimer := 0, nextCycle := 3000,
    buddy := initDuck }

/-- Same-origin FIFO bookkeeping: the requests submitted so far, restricted
to one origin, are exactly the released ones (in release order) followed by
the still-queued ones (in queue order). -/
def fifoInv (subs : List TurnRequest) (s : ArbiterState) : Prop :=
  ∀ o : Origin, subs.filter (ofOrigin o) =
    s.released.filter (ofOrigin o) ++ s.queue.filter (ofOrigin o)

/-- Identity freshness: every active turn carries an identity below the
fresh-id counter. -/
def idInv (s : ArbiterState) : Prop :=
  ∀ a ∈ s.active, a.turnId < s.nextId

/-- C2: The Audio Gate forwards a raw audio frame iff `mode == listening`
and `outputActive == false`; in the other three combinations of the two
fields the frame is discarded (`none`): no error, no buffering, no other
side effect. -/
theorem micGate_forwards_iff (m : Mode) (oa : Bool) (cto : Option Origin)
    (ctu : Option String) (frame : Nat) :
    (micGate ⟨m, oa, cto, ctu⟩ frame = some frame ↔ (m = Mode.listening ∧ oa = false)) ∧
    (micGate ⟨m, oa, cto, ctu⟩ frame = none ↔ ¬(m = Mode.listening ∧ oa = false)) := by
  by_cases h : m = Mode.listening ∧ oa = false <;> simp [micGate, h]

/-- C8: The Input Mute Filter forwards a finalized transcription iff
`outputActive == false` at arrival, and never forwards an interim
transcription, regardless of `outputActive` or `mode`. -/
theorem sttMuteFilter_final_iff (st : SharedState) (t : String) :
    (sttMuteFilter st (SttEvent.final t) = some t ↔ st.outputActive = false) ∧
    sttMuteFilter st (SttEvent.interim t) = none := by
  constructor
  · by_cases h : st.outputActive <;> simp [sttMuteFilter, h]
  · rfl

/-- C7: Chat Ingress `ingest(user, text)` — an identical message from the
same user submitted twice within the cooldown window yields exactly one
TurnRequest: the first submission produces it, the second is dropped
silently. -/
theorem ingest_duplicate_suppressed (trig : String → Bool) (cooldown : Nat)
    (user text : String) (t1 t2 : Nat)
    (htrig : trig text = true) (hwin : t2 - t1 < cooldown) :
    (ingest trig cooldown [] user text t1).2 = some ⟨Origin.chat, user, text, t1⟩ ∧
    (ingest trig cooldown (ingest trig cooldown [] user text t1).1 user text t2).2 = none := by
  simp [ingest, htrig, isRecentDup, hwin]

/-- Witness for `ingest_duplicate_suppressed` at a concrete user, text and
cooldown window. -/
theorem ingest_duplicate_suppressed_witness :
    (ingest (fun t => t == "hello") 5000 [] "u1" "hello" 100).2
      = some ⟨Origin.chat, "u1", "hello", 100⟩ ∧
    (ingest (fun t => t == "hello") 5000
      (ingest (fun t => t == "hello") 5000 [] "u1" "hello" 100).1 "u1" "hello" 200).2 = none :=
  ingest_duplicate_suppressed (fun t => t == "hello") 5000 "u1" "hello" 100 200
    (by decide) (by decide)

/-- C6: starting Idle with an empty queue, submitting voice request `reqV1`
and then chat request `reqC1` releases `reqV1` first (`reqC1` stays
queued); after `reqV1`'s completion signal, with no further voice request,
the next release is `reqC1`. -/
theorem voice_priority_then_chat :
    (arbRun 3 [ArbEvent.submit reqV1, ArbEvent.submit reqC1]).released = [reqV1] ∧
    (arbRun 3 [ArbEvent.submit reqV1, ArbEvent.submit reqC1]).queue = [reqC1] ∧
    (arbRun 3 [ArbEvent.submit reqV1, ArbEvent.submit reqC1, ArbEvent.complete 0]).released
      = [reqV1, reqC1] :=
  ⟨rfl, rfl, rfl⟩

/-- Helper: `setState` is the identity when the requested state is already
current (the early return in `DuckBuddy.setState`). -/
theorem duckSetState_eq_self (s : DuckState) (d : DuckBuddy) (h : d.state = s) :
    duckSetState s d = d := by
  unfold duckSetState
  simp [h]

/-- Helper: after `setState s` the rig's state is `s`. -/
theorem duckSetState_state (s : DuckState) (d : DuckBuddy) :
    (duckSetState s d).state = s := by
  by_cases h : d.state = s
  · rw [duckSetState_eq_self s d h]; exact h
  · unfold duckSetState
    rw [if_neg h]
    cases s <;> rcases hw : d.walkBaseY with _ | b <;> simp [hw, applyPartOffsets]

/-- C9: `DuckBuddy.setState` is idempotent at the public interface — if the
rig's current state already equals `s` then `setState s` leaves the entire
rig unchanged (no textures reset, no animation restarted, no `walkBaseY` or
position modified); hence `setState s` twice equals `setState s` once. -/
theorem duckSetState_idempotent (d : DuckBuddy) (s : DuckState) :
    (d.state = s → duckSetState s d = d) ∧
    duckSetState s (duckSetState s d) = duckSetState s d :=
  ⟨duckSetState_eq_self s d,
   duckSetState_eq_self s (duckSetState s d) (duckSetState_state s d)⟩

/-- Witness for `duckSetState_idempotent` on the constructor-assembled rig:
a redundant `setState('idle')` is a no-op and a repeated `setState('walk')`
equals a single one. -/
theorem duckSetState_idempotent_witness :
    duckSetState DuckState.idle initDuck = initDuck ∧
    duckSetState DuckState.walk (duckSetState DuckState.walk initDuck)
      = duckSetState DuckState.walk initDuck :=
  ⟨(duckSetState_idempotent initDuck DuckState.idle).1 rfl,
   (duckSetState_idempotent initDuck DuckState.walk).2⟩

/-- C10: `OverlayController.update(dtMs)` never changes the character while
a talk or forced state is in effect — if `talking` is set or `forcedState`
is non-null, update returns the controller unchanged: no `setState` call,
and `cycleTimer`, `nextCycle` and `isRoaming` are untouched. -/
theorem ocUpdate_noop_of_talking_or_forced (rnd dtMs : ℚ) (c : OverlayController)
    (h : c.talking = true ∨ c.forcedState ≠ none) :
    ocUpdate rnd dtMs c = c := by
  rcases h with h | h
  · simp [ocUpdate, h]
  · have hs : c.forcedState.isSome = true := Option.isSome_iff_ne_none.mpr h
    by_cases ht : c.talking <;> simp [ocUpdate, ht, hs]

/-- Witness for `ocUpdate_noop_of_talking_or_forced` on a concrete talking
controller and one 16 ms frame. -/
theorem ocUpdate_noop_witness :
    ocUpdate 0 16 talkingController = talkingController :=
  ocUpdate_noop_of_talking_or_forced 0 16 talkingController (Or.inl rfl)

/-- Helper: a release attempt either leaves the active list unchanged or
installs a single fresh active turn. -/
theorem active_attemptRelease (fairN : Nat) (s : ArbiterState) :
    (attemptRelease fairN s).active = s.active ∨
    ∃ a, (attemptRelease fairN s).active = [a] := by
  unfold attemptRelease
  split
  · split
    · left; rfl
    · unfold doRelease
      split
      · left; rfl
      · right; exact ⟨_, rfl⟩
  · left; rfl

/-- Helper: a counted release attempt preserves "at most one active turn". -/
theorem active_tryRelease_le (fairN : Nat) (s : ArbiterState)
    (h : s.active.length ≤ 1) : (tryRelease fairN s).active.length ≤ 1 := by
  unfold tryRelease
  rcases active_attemptRelease fairN { s with attempts := s.attempts + 1 } with hh | ⟨a, hh⟩
  · rw [hh]; exact h
  · rw [hh]; simp

/-- Helper: every arbiter step preserves "at most one active turn". -/
theorem active_arbStep_le (fairN : Nat) (e : ArbEvent) (s : ArbiterState)
    (h : s.active.length ≤ 1) : (arbStep fairN s e).active.length ≤ 1 := by
  cases e with
  | submit r =>
    show (submit fairN r s).active.length ≤ 1
    simp only [submit]
    split
    · exact active_tryRelease_le fairN _ h
    · exact h
  | complete tid =>
    show (onTurnComplete fairN tid s).active.length ≤ 1
    unfold onTurnComplete
    split
    · exact active_tryRelease_le fairN _ (by simp [clearActive])
    · exact h
  | watchdog tid =>
    show (onWatchdogExpire fairN tid s).active.length ≤ 1
    unfold onWatchdogExpire
    split
    · exact active_tryRelease_le fairN _ (by simp [clearActive])
    · exact h

/-- Helper: the step invariant carried through a whole event sequence. -/
theorem active_foldl_le (fairN : Nat) (es : List ArbEvent) :
    ∀ s : ArbiterState, s.active.length ≤ 1 →
      (es.foldl (arbStep fairN) s).active.length ≤ 1 := by
  induction es with
  | nil => intro s h; exact h
  | cons e t ih => intro s h; exact ih _ (active_arbStep_le fairN e s h)

/-- C1: for every sequence of submit, completion and watchdog events from
the initial Idle state, at most one ActiveTurn exists at any observed
instant — and since `attemptRelease` fires only when the active list is
empty, a new release occurs only after the previous active turn was cleared
by completion or watchdog expiry. -/
theorem arbiter_at_most_one_active (fairN : Nat) (es : List ArbEvent) :
    (arbRun fairN es).active.length ≤ 1 :=
  active_foldl_le fairN es initArbiter (by simp [initArbiter])

/-- Helper: when `find?` locates `r`, the filtered list is `r` followed by
the filter of the list with that first occurrence erased. -/
theorem filter_of_find?_eraseP {α : Type} (p : α → Bool) (l : List α) (r : α)
    (hf : l.find? p = some r) :
    l.filter p = r :: (l.eraseP p).filter p := by
  induction l with
  | nil => simp at hf
  | cons a t ih =>
    cases h : p a with
    | true =>
      rw [List.find?_cons_of_pos _ h] at hf
      obtain rfl : a = r := by injection hf
      simp [List.eraseP_cons, List.filter_cons, h]
    | false =>
      rw [List.find?_cons_of_neg _ (by simp [h])] at hf
      simp [List.eraseP_cons, List.filter_cons, h, ih hf]

/-- Helper: erasing an element that satisfies `p` does not disturb a filter
by a predicate disjoint from `p`. -/
theorem filter_eraseP_disjoint {α : Type} (p q : α → Bool) (l : List α)
    (hpq : ∀ x, p x = true → q x = false) :
    (l.eraseP p).filter q = l.filter q := by
  induction l with
  | nil => rfl
  | cons a t ih =>
    cases h : p a with
    | true => simp [List.eraseP_cons, h, List.filter_cons, hpq a h]
    | false => simp [List.eraseP_cons, h, List.filter_cons, ih]

/-- Helper: requests of distinct origins satisfy disjoint origin tests. -/
theorem ofOrigin_disjoint {o o' : Origin} (h : o' ≠ o) :
    ∀ x, ofOrigin o x = true → ofOrigin o' x = false := by
  intro x hx
  have hxo : x.origin = o := by simpa [ofOrigin] using hx
  simp only [ofOrigin, hxo, beq_eq_false_iff_ne, ne_eq]
  exact fun hc => h hc.symm

/-- Helper: `release()` preserves the same-origin FIFO bookkeeping — the
released request is moved from the head of its origin-filtered queue to the
end of the release trace. -/
theorem fifoInv_attemptRelease (fairN : Nat) (subs : List TurnRequest)
    (s : ArbiterState) (h : fifoInv subs s) :
    fifoInv subs (attemptRelease fairN s) := by
  intro o'
  unfold attemptRelease
  split
  · split
    · exact h o'
    next o ho =>
      unfold doRelease
      split
      · exact h o'
      next r hr =>
        have hpr : ofOrigin o r = true := List.find?_some hr
        by_cases hoo : o' = o
        · subst hoo
          rw [h o', List.filter_append, filter_of_find?_eraseP (ofOrigin o') _ r hr]
          simp [hpr]
        · have hq := filter_eraseP_disjoint (ofOrigin o) (ofOrigin o') s.queue
            (ofOrigin_disjoint hoo)
          have hrf : ofOrigin o' r = false := ofOrigin_disjoint hoo r hpr
          rw [h o', List.filter_append]
          simp [hq, hrf]
  · exact h o'

/-- Helper: a counted release attempt preserves the FIFO bookkeeping. -/
theorem fifoInv_tryRelease (fairN : Nat) (subs : List TurnRequest)
    (s : ArbiterState) (h : fifoInv subs s) :
    fifoInv subs (tryRelease fairN s) :=
  fifoInv_attemptRelease fairN subs { s with attempts := s.attempts + 1 }
    (fun o => h o)

/-- Helper: `submit` extends the submitted list and the queue coherently. -/
theorem fifoInv_submit (fairN : Nat) (subs : List TurnRequest) (r : TurnRequest)
    (s : ArbiterState) (h : fifoInv subs s) :
    fifoInv (subs ++ [r]) (submit fairN r s) := by
  have h1 : fifoInv (subs ++ [r]) { s with queue := s.queue ++ [r] } := by
    intro o
    show (subs ++ [r]).filter (ofOrigin o)
        = s.released.filter (ofOrigin o) ++ (s.queue ++ [r]).filter (ofOrigin o)
    rw [List.filter_append, List.filter_append, h o, List.append_assoc]
  simp only [submit]
  split
  · exact fifoInv_tryRelease fairN _ _ h1
  · exact h1

/-- Helper: every arbiter step preserves the FIFO bookkeeping. -/
theorem fifoInv_arbStep (fairN : Nat) (e : ArbEvent) (subs : List TurnRequest)
    (s : ArbiterState) (h : fifoInv subs s) :
    fifoInv (subs ++ submitsOf [e]) (arbStep fairN s e) := by
  cases e with
  | submit r => exact fifoInv_submit fairN subs r s h
  | complete tid =>
    have heq : subs ++ submitsOf [ArbEvent.complete tid] = subs := by
      simp [submitsOf]
    rw [heq]
    show fifoInv subs (onTurnComplete fairN tid s)
    unfold onTurnComplete
    split
    · exact fifoInv_tryRelease fairN subs _ (fun o => h o)
    · exact h
  | watchdog tid =>
    have heq : subs ++ submitsOf [ArbEvent.watchdog tid] = subs := by
      simp [submitsOf]
    rw [heq]
    show fifoInv subs (onWatchdogExpire fairN tid s)
    unfold onWatchdogExpire
    split
    · exact fifoInv_tryRelease fairN subs _ (fun o => h o)
    · exact h

/-- Helper: the FIFO bookkeeping carried through a whole event sequence. -/
theorem fifoInv_foldl (fairN : Nat) (es : List ArbEvent) :
    ∀ (subs : List TurnRequest) (s : ArbiterState), fifoInv subs s →
      fifoInv (subs ++ submitsOf es) (es.foldl (arbStep fairN) s) := by
  induction es with
  | nil =>
    intro subs s h
    simpa [submitsOf] using h
  | cons e t ih =>
    intro subs s h
    have h2 := ih (subs ++ submitsOf [e]) (arbStep fairN s e)
      (fifoInv_arbStep fairN e subs s h)
    have heq : (subs ++ submitsOf [e]) ++ submitsOf t = subs ++ submitsOf (e :: t) := by
      cases e <;> simp [submitsOf]
    rwa [heq] at h2

/-- C3: same-origin FIFO order is preserved by every selection the arbiter
makes — for each origin, the submitted requests of that origin, in
submission order, are exactly the released ones of that origin (in release
order) followed by the still-queued ones (in queue order); hence a request
enqueued before a same-origin peer is released no later than it, and only
cross-origin order is policy-driven. -/
theorem same_origin_fifo (fairN : Nat) (es : List ArbEvent) (o : Origin) :
    (submitsOf es).filter (ofOrigin o) =
      (arbRun fairN es).released.filter (ofOrigin o) ++
        (arbRun fairN es).queue.filter (ofOrigin o) := by
  have h0 : fifoInv [] initArbiter := fun o' => rfl
  have h := fifoInv_foldl fairN es [] initArbiter h0
  simpa using h o

/-- Helper: with the fairness threshold reached and a chat request queued,
an Idle release takes the oldest queued chat request. -/
theorem attemptRelease_chat (fairN : Nat) (s : ArbiterState) (r : TurnRequest)
    (hidle : s.active = []) (hN : fairN ≤ s.consecVoice)
    (hchat : s.queue.any isChatReq = true)
    (hr : s.queue.find? (ofOrigin Origin.chat) = some r) :
    (attemptRelease fairN s).released = s.released ++ [r] ∧
    (attemptRelease fairN s).active = [⟨s.nextId, r.origin, r.user, s.nextId⟩] ∧
    (attemptRelease fairN s).queue = s.queue.eraseP (ofOrigin Origin.chat) := by
  have hco : chooseOrigin fairN s.consecVoice s.queue = some Origin.chat := by
    unfold chooseOrigin
    rw [if_pos ⟨hN, hchat⟩]
  unfold attemptRelease
  rw [if_pos hidle]
  simp [hco, doRelease, hr]

/-- C4: if the configurable fairness threshold `fairN` of consecutive
voice-origin releases has been reached while at least one chat-origin
request is still queued, the next release attempt selects the oldest queued
chat request (the first chat entry of the FIFO queue), not any queued voice
request. -/
theorem fairness_prefers_oldest_chat (fairN : Nat) (s : ArbiterState)
    (hidle : s.active = []) (hN : fairN ≤ s.consecVoice)
    (hchat : s.queue.any isChatReq = true) :
    ∃ r, s.queue.find? (ofOrigin Origin.chat) = some r ∧ r.origin = Origin.chat ∧
      (tryRelease fairN s).released = s.released ++ [r] ∧
      (tryRelease fairN s).active = [⟨s.nextId, r.origin, r.user, s.nextId⟩] := by
  have hex : ∃ x ∈ s.queue, ofOrigin Origin.chat x = true := by
    rcases List.any_eq_true.mp hchat with ⟨x, hx, hpx⟩
    exact ⟨x, hx, hpx⟩
  have hsome : (s.queue.find? (ofOrigin Origin.chat)).isSome := by
    rw [List.find?_isSome]
    exact hex
  obtain ⟨r, hr⟩ := Option.isSome_iff_exists.mp hsome
  have hro : r.origin = Origin.chat := by
    have hp := List.find?_some hr
    simpa [ofOrigin] using hp
  have hmain := attemptRelease_chat fairN { s with attempts := s.attempts + 1 } r
    hidle hN hchat hr
  exact ⟨r, hr, hro, hmain.1, hmain.2.1⟩

/-- Witness for `fairness_prefers_oldest_chat` on a concrete Idle state with
a voice and a chat request queued and the threshold already reached. -/
theorem fairness_prefers_oldest_chat_witness :
    ∃ r, fairFixture.queue.find? (ofOrigin Origin.chat) = some r ∧
      r.origin = Origin.chat ∧
      (tryRelease 2 fairFixture).released = fairFixture.released ++ [r] ∧
      (tryRelease 2 fairFixture).active
        = [⟨fairFixture.nextId, r.origin, r.user, fairFixture.nextId⟩] :=
  fairness_prefers_oldest_chat 2 fairFixture rfl (by decide) (by decide)

/-- Helper: `release()` never changes the attempt counter (the counter is
bumped by the caller, once per attempt). -/
theorem attempts_attemptRelease (fairN : Nat) (s : ArbiterState) :
    (attemptRelease fairN s).attempts = s.attempts := by
  unfold attemptRelease
  split
  · split
    · rfl
    · unfold doRelease
      split
      · rfl
      · rfl
  · rfl

/-- Helper: any turn active after a release attempt was either already
active or carries the fresh identity `s.nextId`. -/
theorem active_attemptRelease_mem (fairN : Nat) (s : ArbiterState) :
    ∀ a ∈ (attemptRelease fairN s).active, a ∈ s.active ∨ a.turnId = s.nextId := by
  unfold attemptRelease
  split
  · split
    · exact fun a ha => Or.inl ha
    · unfold doRelease
      split
      · exact fun a ha => Or.inl ha
      · intro a ha
        simp at ha
        subst ha
        exact Or.inr rfl
  · exact fun a ha => Or.inl ha

/-- Helper: a release attempt preserves identity freshness. -/
theorem idInv_attemptRelease (fairN : Nat) (s : ArbiterState) (h : idInv s) :
    idInv (attemptRelease fairN s) := by
  unfold attemptRelease
  split
  · split
    · exact h
    · unfold doRelease
      split
      · exact h
      · intro a ha
        simp at ha
        subst ha
        simp
  · exact h

/-- Helper: every arbiter step preserves identity freshness. -/
theorem idInv_arbStep (fairN : Nat) (e : ArbEvent) (s : ArbiterState) (h : idInv s) :
    idInv (arbStep fairN s e) := by
  cases e with
  | submit r =>
    show idInv (submit fairN r s)
    simp only [submit]
    split
    · exact idInv_attemptRelease fairN _ (fun a ha => h a ha)
    · exact fun a ha => h a ha
  | complete tid =>
    show idInv (onTurnComplete fairN tid s)
    unfold onTurnComplete
    split
    · exact idInv_attemptRelease fairN _ (fun a ha => by simp [clearActive] at ha)
    · exact h
  | watchdog tid =>
    show idInv (onWatchdogExpire fairN tid s)
    unfold onWatchdogExpire
    split
    · exact idInv_attemptRelease fairN _ (fun a ha => by simp [clearActive] at ha)
    · exact h

/-- Helper: identity freshness carried through a whole event sequence. -/
theorem idInv_foldl (fairN : Nat) (es : List ArbEvent) :
    ∀ s : ArbiterState, idInv s → idInv (es.foldl (arbStep fairN) s) := by
  induction es with
  | nil => exact fun _ h => h
  | cons e t ih => exact fun s h => ih _ (idInv_arbStep fairN e s h)

/-- Helper: every reachable arbiter state has fresh identities. -/
theorem idInv_arbRun (fairN : Nat) (es : List ArbEvent) : idInv (arbRun fairN es) :=
  idInv_foldl fairN es initArbiter (fun a ha => by simp [initArbiter] at ha)

/-- C5: from any reachable Busy state, a watchdog expiry followed
immediately by the completion signal for the same turn (or vice versa)
produces exactly one transition to Idle and exactly one queue-release
attempt, never two: the two handlers coincide, whichever fires first
performs the single transition and counts the single release attempt, and
the second signal is a no-op. -/
theorem watchdog_complete_idempotent (fairN : Nat) (es : List ArbEvent) (a : ActiveTurn)
    (hact : (arbRun fairN es).active = [a]) :
    onTurnComplete fairN a.turnId (arbRun fairN es)
        = onWatchdogExpire fairN a.turnId (arbRun fairN es) ∧
    onWatchdogExpire fairN a.turnId (onTurnComplete fairN a.turnId (arbRun fairN es))
        = onTurnComplete fairN a.turnId (arbRun fairN es) ∧
    onTurnComplete fairN a.turnId (onWatchdogExpire fairN a.turnId (arbRun fairN es))
        = onWatchdogExpire fairN a.turnId (arbRun fairN es) ∧
    (onTurnComplete fairN a.turnId (arbRun fairN es)).attempts
        = (arbRun fairN es).attempts + 1 := by
  set s := arbRun fairN es with hs
  have hinv : idInv s := idInv_arbRun fairN es
  have hlt : a.turnId < s.nextId := hinv a (by rw [hact]; exact List.mem_singleton_self a)
  have hturn : hasTurn a.turnId s = true := by
    unfold hasTurn
    rw [hact]
    simp
  have hcomp : onTurnComplete fairN a.turnId s = tryRelease fairN (clearActive s) := by
    unfold onTurnComplete
    rw [if_pos hturn]
  have hwd : onWatchdogExpire fairN a.turnId s = tryRelease fairN (clearActive s) := by
    unfold onWatchdogExpire
    rw [if_pos hturn]
  have hnot : hasTurn a.turnId (tryRelease fairN (clearActive s)) = false := by
    unfold hasTurn
    rw [List.any_eq_false]
    intro a' ha'
    rcases active_attemptRelease_mem fairN
        { clearActive s with attempts := (clearActive s).attempts + 1 } a' ha' with
      hmem | hmem
    · simp [clearActive] at hmem
    · simp only [clearActive] at hmem
      simp only [beq_iff_eq, hmem]
      omega
  refine ⟨hcomp.trans hwd.symm, ?_, ?_, ?_⟩
  · rw [hcomp]
    unfold onWatchdogExpire
    rw [if_neg (by simp [hnot])]
  · rw [hwd]
    unfold onTurnComplete
    rw [if_neg (by simp [hnot])]
  · rw [hcomp]
    unfold tryRelease
    rw [attempts_attemptRelease]
    simp [clearActive]

/-- Witness for `watchdog_complete_idempotent` on the reachable Busy state
obtained by submitting one voice request, whose active turn has identity
0. -/
theorem watchdog_complete_idempotent_witness :
    onTurnComplete 3 0 (arbRun 3 [ArbEvent.submit reqV1])
        = onWatchdogExpire 3 0 (arbRun 3 [ArbEvent.submit reqV1]) ∧
    onWatchdogExpire 3 0 (onTurnComplete 3 0 (arbRun 3 [ArbEvent.submit reqV1]))
        = onTurnComplete 3 0 (arbRun 3 [ArbEvent.submit reqV1]) ∧
    onTurnComplete 3 0 (onWatchdogExpire 3 0 (arbRun 3 [ArbEvent.submit reqV1]))
        = onWatchdogExpire 3 0 (arbRun 3 [ArbEvent.submit reqV1]) ∧
    (onTurnComplete 3 0 (arbRun 3 [ArbEvent.submit reqV1])).attempts
        = (arbRun 3 [ArbEvent.submit reqV1]).attempts + 1 :=
  watchdog_complete_idempotent 3 [ArbEvent.submit reqV1]
    ⟨0, Origin.voice, "bootoshi", 0⟩ rfl
